import Mathlib

/-!
Verification of the monthly-bill domain of `outofboxer/temporal-workflow`.

The development shallowly embeds the Go sources:

* `libs/money/money.go` (and its variant with JSON marshalling) — the
  `Money` value type over shopspring decimals.  A shopspring decimal is a
  pair of an arbitrary-precision integer coefficient and an `int32`
  exponent, denoting `coefficient * 10 ^ exponent`; the library operations
  used by this repository (`Add`, `Mul`, `Round` with half-away-from-zero
  rounding, `IntPart`, `Div` with its documented panic on a zero divisor,
  `String` with trailing-zero trimming, `NewFromString`) are modelled on
  that representation following the library's documented semantics.
* `fees/domain/bill.go` — the `Bill` aggregate, its status state machine,
  line items, totals and the builder.
* `fees/app/workflows/monthly_bill.go` — the pure tail of the workflow
  (the finalization phase) and `moneyToCents`.
* `fees/app/usecases/search_bill.go` and `libs/time/time.go` — the search
  filter construction.

Go strings are modelled as `String`/`List Char` (the strings involved are
ASCII, where Go's byte-wise processing and char-wise processing agree);
`time.Time` values are modelled as abstract instants `Int`; methods that
mutate their receiver through a pointer are modelled as functions
returning the updated value together with an optional error.
-/

namespace decimal

/-- Model of `shopspring/decimal.Decimal`: an arbitrary-precision integer
coefficient together with a base-10 exponent; the denoted number is
`value * 10 ^ exp`.  (In Go the exponent is an `int32`; theorems that
depend on the bound take it as a hypothesis.) -/
structure Decimal where
  value : Int
  exp : Int
deriving DecidableEq, Repr

/-- The rational number denoted by a decimal. -/
def Decimal.val (d : Decimal) : ℚ := (d.value : ℚ) * (10 : ℚ) ^ d.exp

/-- Model of `decimal.Zero`. -/
def Zero : Decimal := ⟨0, 0⟩

/-- Model of `decimal.New(value, exp)`. -/
def New (value : Int) (exp : Int) : Decimal := ⟨value, exp⟩

/-- Model of `decimal.NewFromInt`. -/
def NewFromInt (n : Int) : Decimal := ⟨n, 0⟩

/-- Model of `Decimal.Add`: both operands are rescaled to the smaller
exponent and the coefficients are added. -/
def Decimal.Add (d d2 : Decimal) : Decimal :=
  let e := min d.exp d2.exp
  ⟨d.value * 10 ^ (d.exp - e).toNat + d2.value * 10 ^ (d2.exp - e).toNat, e⟩

/-- Model of `Decimal.Mul`: coefficients multiply, exponents add. -/
def Decimal.Mul (d d2 : Decimal) : Decimal :=
  ⟨d.value * d2.value, d.exp + d2.exp⟩

/-- Rounding of a rational to an integer, half away from zero — the
rounding mode documented for `shopspring/decimal.Decimal.Round`. -/
def ratRoundHalfAway (q : ℚ) : Int :=
  if 0 ≤ q then ⌊q + 1 / 2⌋ else -⌊-q + 1 / 2⌋

/-- Model of `Decimal.Round(places)`: the value is rounded half away from
zero to `places` decimal places and the result carries exponent
`-places` (the Go implementation returns the receiver unchanged when its
exponent is already `-places`). -/
def Decimal.Round (d : Decimal) (places : Int) : Decimal :=
  if d.exp = -places then d
  else ⟨ratRoundHalfAway (d.val * (10 : ℚ) ^ places), -places⟩

/-- Two's-complement wrap into the `int64` range.  This is the value
`big.Int.Int64()` produces: it reads the low 64 bits of the absolute
value and negates for a negative sign, which agrees with the
two's-complement residue for every input (the Go documentation calls the
out-of-range result undefined; the implementation computes this). -/
def int64wrap (z : Int) : Int :=
  (z + 2 ^ 63) % 2 ^ 64 - 2 ^ 63

/-- The integer component of the denoted value before the machine-word
conversion: the arbitrary-precision value of `d.rescale(0)`, i.e. the
value truncated toward zero. -/
def Decimal.truncated (d : Decimal) : Int :=
  if 0 ≤ d.exp then d.value * 10 ^ d.exp.toNat
  else
    let p := 10 ^ (-d.exp).toNat
    if 0 ≤ d.value then (d.value.natAbs / p : ℕ) else -((d.value.natAbs / p : ℕ) : Int)

/-- Model of `Decimal.IntPart`: `d.rescale(0).value.Int64()` — the value
truncated toward zero and then converted to an `int64` through
`big.Int.Int64()` (modelled by `int64wrap`); the result only represents
the true integer part when that fits in an `int64`. -/
def Decimal.IntPart (d : Decimal) : Int := int64wrap d.truncated

/-- Model of `Decimal.Cmp`: three-way comparison of the denoted values. -/
def Decimal.Cmp (d d2 : Decimal) : Int :=
  if d.val < d2.val then -1 else if d.val = d2.val then 0 else 1

/-- Model of `Decimal.Sign`, the sign of the coefficient (equivalently of
the denoted value). -/
def Decimal.Sign (d : Decimal) : Int :=
  if d.value < 0 then -1 else if d.value = 0 then 0 else 1

/-- The division precision configured in shopspring decimal
(`DivisionPrecision = 16`). -/
def DivisionPrecision : Int := 16

/-- Model of `Decimal.Div`, which is `DivRound(d2, DivisionPrecision)`:
the quotient rounded half away from zero to 16 decimal places.  The Go
library PANICS when the divisor is zero (`decimal division by 0`); the
panic is modelled as `none`.  There is no error return. -/
def Decimal.Div (d d2 : Decimal) : Option Decimal :=
  if d2.value = 0 then none
  else some ⟨ratRoundHalfAway (d.val / d2.val * (10 : ℚ) ^ DivisionPrecision),
    -DivisionPrecision⟩

/-- The decimal digit characters, as produced by `big.Int.String`. -/
def digitChar (d : Nat) : Char :=
  match d with
  | 0 => '0' | 1 => '1' | 2 => '2' | 3 => '3' | 4 => '4'
  | 5 => '5' | 6 => '6' | 7 => '7' | 8 => '8' | _ => '9'

/-- Inverse of `digitChar`; `none` on a non-digit character. -/
def charToDigit (c : Char) : Option Nat :=
  if c = '0' then some 0 else if c = '1' then some 1
  else if c = '2' then some 2 else if c = '3' then some 3
  else if c = '4' then some 4 else if c = '5' then some 5
  else if c = '6' then some 6 else if c = '7' then some 7
  else if c = '8' then some 8 else if c = '9' then some 9 else none

/-- Digit-producing loop, structurally recursive on a fuel bound so that
it evaluates by kernel reduction; `natCharsAux fuel n` is the digit
string of `n` (most significant first, empty for 0) whenever `n ≤ fuel`. -/
def natCharsAux : Nat → Nat → List Char
  | 0, _ => []
  | fuel + 1, n =>
    if n = 0 then [] else natCharsAux fuel (n / 10) ++ [digitChar (n % 10)]

/-- Decimal digit string of a natural number, most significant digit
first, as produced by `big.Int.String` for non-negative values. -/
def natChars (n : Nat) : List Char :=
  if n = 0 then ['0'] else natCharsAux n n

/-- Decimal digit string of an integer, as produced by `big.Int.String`. -/
def intChars (n : Int) : List Char :=
  (if n < 0 then ['-'] else []) ++ natChars n.natAbs

/-- Value of a string of digit characters read most significant first
(non-digit characters count as 0; callers guard with `allDigits`). -/
def valDigits (l : List Char) : Nat :=
  l.foldl (fun a c => a * 10 + (charToDigit c).getD 0) 0

/-- True when every character of the list is a decimal digit. -/
def allDigits (l : List Char) : Bool :=
  l.all (fun c => (charToDigit c).isSome)

/-- Model of decimal-digit integer parsing as performed by
`strconv.ParseInt` / `big.Int.SetString` in base 10: an optional sign
followed by a non-empty run of digits. -/
def parseUnsigned (l : List Char) : Option Nat :=
  if l.isEmpty then none
  else if allDigits l then some (valDigits l) else none

/-- Signed variant of `parseUnsigned` (leading `+` or `-` accepted). -/
def parseIntChars (l : List Char) : Option Int :=
  match l with
  | [] => none
  | c :: rest =>
    if c = '+' then (parseUnsigned rest).map (fun n => (n : Int))
    else if c = '-' then (parseUnsigned rest).map (fun n => -(n : Int))
    else (parseUnsigned (c :: rest)).map (fun n => (n : Int))

/-- Removes trailing `'0'` characters, as the trailing-zero trimming of
the fractional part in `Decimal.String`. -/
def trimTrailingZeros (l : List Char) : List Char :=
  (l.reverse.dropWhile (fun c => c = '0')).reverse

/-- Model of `Decimal.String()` (via `string(trimTrailingZeros := true)`):
for a non-negative exponent the rescaled integer is printed; otherwise
the digit string of the absolute coefficient is split into an integer
part and a fractional part of length `-exp` (zero-padded on the left when
too short), the fractional part is trimmed of trailing zeros, and a dot
is inserted only when the trimmed fractional part is non-empty. -/
def Decimal.toChars (d : Decimal) : List Char :=
  if 0 ≤ d.exp then intChars (d.value * 10 ^ d.exp.toNat)
  else
    let k := (-d.exp).toNat
    let abs := natChars d.value.natAbs
    let intPart := if k < abs.length then abs.take (abs.length - k) else ['0']
    let fracRaw :=
      if k < abs.length then abs.drop (abs.length - k)
      else List.replicate (k - abs.length) '0' ++ abs
    let frac := trimTrailingZeros fracRaw
    (if d.value < 0 then ['-'] else []) ++ intPart ++
      (if frac.isEmpty then [] else '.' :: frac)

/-- Model of `Decimal.String()` producing a `String`. -/
def Decimal.toGoString (d : Decimal) : String := String.mk d.toChars

/-- The `int32` bounds checked by `decimal.NewFromString` on the
accumulated exponent. -/
def minInt32 : Int := -2147483648

/-- Upper `int32` bound used by `decimal.NewFromString`. -/
def maxInt32 : Int := 2147483647

/-- First phase of `decimal.NewFromString`: the mantissa before the
first `e`/`E` together with the remainder of the string from that
character on (empty when no scientific notation is present). -/
def splitOnE (value : List Char) : List Char × List Char :=
  (value.takeWhile (fun c => !(c = 'e' || c = 'E')),
    value.drop (value.takeWhile (fun c => !(c = 'e' || c = 'E'))).length)

/-- Parse of the scientific-notation exponent remainder: empty means
exponent 0; otherwise the part after the `e`/`E` must be a signed
integer within `int32` range. -/
def parseExpPart : List Char → Except String Int
  | [] => .ok 0
  | _ :: expStr =>
    match parseIntChars expStr with
    | some e =>
      if minInt32 ≤ e ∧ e ≤ maxInt32 then .ok e
      else .error "can't convert to decimal: exponent is not numeric"
    | none => .error "can't convert to decimal: exponent is not numeric"

/-- Dot phase of `decimal.NewFromString`: at most one `.` is allowed in
the mantissa; the result is the digit string with the dot removed
together with the length of the fractional part. -/
def splitDot (mantissa : List Char) : Except String (List Char × Int) :=
  let beforeDot := mantissa.takeWhile (fun c => !(c = '.'))
  match mantissa.drop beforeDot.length with
  | [] => .ok (mantissa, 0)
  | _ :: afterDot =>
    if afterDot.any (fun c => c = '.') then
      .error "can't convert to decimal: too many .s"
    else .ok (beforeDot ++ afterDot, (afterDot.length : Int))

/-- Model of `decimal.NewFromString`: an optional scientific-notation
exponent is split off at the first `e`/`E`; the mantissa may contain at
most one `.`, which is removed while lowering the exponent by the length
of the fractional part; the remaining signed digit string is the
coefficient.  Errors mirror the Go error paths (unparsable exponent,
repeated dot, unparsable coefficient, exponent out of `int32` range). -/
def NewFromString (value : List Char) : Except String Decimal :=
  match parseExpPart (splitOnE value).2 with
  | .error msg => .error msg
  | .ok e0 =>
    match splitDot (splitOnE value).1 with
    | .error msg => .error msg
    | .ok (intString, fracLen) =>
      match parseIntChars intString with
      | none => .error "can't convert to decimal"
      | some v =>
        if e0 - fracLen < minInt32 ∨ maxInt32 < e0 - fracLen then
          .error "can't convert to decimal: fractional part too long"
        else .ok ⟨v, e0 - fracLen⟩

end decimal

namespace libmoney

open decimal

/-- Model of `libmoney.Currency` (a Go string type). -/
abbrev Currency := String

/-- Currency sentinel `CurrencyNone`. -/
def CurrencyNone : Currency := "None"

/-- Currency constant `CurrencyUSD`. -/
def CurrencyUSD : Currency := "USD"

/-- Currency constant `CurrencyGEL`. -/
def CurrencyGEL : Currency := "GEL"

/-- Model of `libmoney.SupportedCurrency`. -/
def SupportedCurrency (currency : Currency) : Bool :=
  currency == CurrencyGEL || currency == CurrencyUSD

/-- Model of `libmoney.Money`: a decimal magnitude tagged with a
currency. -/
structure Money where
  value : Decimal
  currency : Currency
deriving DecidableEq, Repr

/-- The magnitude of a `Money` as a rational number. -/
def Money.magnitude (m : Money) : ℚ := m.value.val

/-- Model of `libmoney.NewFromInt`. -/
def NewFromInt (m : Int) (c : Currency) : Money :=
  { value := decimal.NewFromInt m, currency := c }

/-- Model of `libmoney.NewResetCurrency`. -/
def NewResetCurrency (v : Money) (c : Currency) : Money :=
  { value := v.value, currency := c }

/-- Model of `libmoney.NewFomDecimal`. -/
def NewFomDecimal (v : Decimal) (c : Currency) : Money :=
  { value := v, currency := c }

/-- Model of `libmoney.NewFromString`.  The Go function returns a pair of
a `Money` and an error; the error cases (empty string, decimal parse
failure) are modelled with `Except`, and no caller in the repository uses
the `Money` component of an errored call. -/
def NewFromString (m : List Char) (c : Currency) : Except String Money :=
  if m.isEmpty then .error "empty string"
  else
    match decimal.NewFromString m with
    | .error msg => .error msg
    | .ok v => .ok { value := v, currency := c }

/-- Model of `Money.Add` (variadic): the decimal values are folded with
decimal addition and the receiver's currency is kept. -/
def Money.Add (m : Money) (m2 : List Money) : Money :=
  { value := m2.foldl (fun res v => res.Add v.value) m.value, currency := m.currency }

/-- Model of `Money.Mul`. -/
def Money.Mul (m : Money) (m2 : Money) : Money :=
  { value := m.value.Mul m2.value, currency := m.currency }

/-- Model of `Money.MulOnDecimal`. -/
def Money.MulOnDecimal (m : Money) (m2 : Decimal) : Money :=
  { value := m.value.Mul m2, currency := m.currency }

/-- Model of `Money.Round`. -/
def Money.Round (m : Money) (places : Int) : Money :=
  { value := m.value.Round places, currency := m.currency }

/-- Model of `Money.IntPart`. -/
def Money.IntPart (m : Money) : Int := m.value.IntPart

/-- Model of `Money.Div`.  The underlying decimal division panics on a
zero divisor (there is no zero check and no error return in the Go
source); the panic is modelled as `none`. -/
def Money.Div (m : Money) (m2 : Money) : Option Money :=
  (m.value.Div m2.value).map (fun res => { value := res, currency := m.currency })

/-- Model of `Money.Cmp`. -/
def Money.Cmp (m : Money) (m2 : Money) : Int := m.value.Cmp m2.value

/-- Model of `Money.IsZero`. -/
def Money.IsZero (m : Money) : Bool := m.value.value == 0

/-- Model of `Money.ToString`. -/
def Money.ToString (m : Money) : String := m.value.toGoString

end libmoney

namespace domain

open libmoney

/-- Model of `domain.BillStatus` (a Go string type). -/
abbrev BillStatus := String

/-- Status fallback `BillStatusUnknown` (the empty string). -/
def BillStatusUnknown : BillStatus := ""

/-- Status constant `BillStatusOpen`. -/
def BillStatusOpen : BillStatus := "OPEN"

/-- Status constant `BillStatusPending`. -/
def BillStatusPending : BillStatus := "PENDING"

/-- Status constant `BillStatusClosed`. -/
def BillStatusClosed : BillStatus := "CLOSED"

/-- Status constant `BillStatusError`. -/
def BillStatusError : BillStatus := "ERROR"

/-- Model of the `allowed` transition table in `bill.go`.  A lookup of a
key missing from the Go map yields the zero value `false`. -/
def allowed (src : BillStatus) (dst : BillStatus) : Bool :=
  if src == BillStatusOpen then dst == BillStatusPending || dst == BillStatusError
  else if src == BillStatusPending then dst == BillStatusClosed || dst == BillStatusError
  else if src == BillStatusClosed then false
  else if src == BillStatusUnknown then dst == BillStatusError
  else if src == BillStatusError then dst == BillStatusError
  else false

/-- The domain error values declared in `bill.go`.  `invalidTransition`
and `guardFailed` carry the wrapped context added by `fmt.Errorf`. -/
inductive BillErr where
  | invalidTransition (src : BillStatus) (dst : BillStatus)
  | guardFailed (msg : String)
  | emptyIdempotencyKey
  | billNotOpen
deriving DecidableEq, Repr

/-- Model of `domain.LineItem` (`AddedAt` is an abstract instant). -/
structure LineItem where
  IdempotencyKey : String
  Description : String
  Amount : Money
  AddedAt : Int
deriving DecidableEq, Repr

/-- Model of `domain.Bill`.  Timestamps are abstract instants and
`FinalizedAt` is the nilable pointer field. -/
structure Bill where
  ID : String
  CustomerID : String
  Currency : Currency
  BillingPeriod : String
  Status : BillStatus
  Items : List LineItem
  Total : Money
  CreatedAt : Int
  UpdatedAt : Int
  FinalizedAt : Option Int
deriving DecidableEq, Repr

/-- Runs the transition guards in order, returning the first failure (the
loop body of `Bill.Transition`). -/
def checkGuards (b : Bill) : List (Bill → Option String) → Option String
  | [] => none
  | g :: gs =>
    match g b with
    | some e => some e
    | none => checkGuards b gs

/-- Model of `Bill.Transition`: a self-transition is always permitted;
otherwise the `allowed` table is consulted; then the guards run; only
then is the status assigned.  The pair returns the (possibly updated)
receiver together with the error. -/
def Bill.Transition (b : Bill) (dst : BillStatus)
    (guards : List (Bill → Option String)) : Bill × Option BillErr :=
  let selfTransition := b.Status == dst
  if !selfTransition && !allowed b.Status dst then
    (b, some (.invalidTransition b.Status dst))
  else
    match checkGuards b guards with
    | some e => (b, some (.guardFailed e))
    | none => ({ b with Status := dst }, none)

/-- Model of `Bill.AddItem`: empty-key validation, open-status check,
idempotent skip on a duplicate key, then normalization of the amount to
the bill currency, append, incremental total update and `UpdatedAt`. -/
def Bill.AddItem (b : Bill) (idempotencyKey : String) (description : String)
    (amount : Money) (updatedAt : Int) : Bill × Option BillErr :=
  if idempotencyKey == "" then (b, some .emptyIdempotencyKey)
  else if !(b.Status == BillStatusOpen) then (b, some .billNotOpen)
  else if b.Items.any (fun li => li.IdempotencyKey == idempotencyKey) then (b, none)
  else
    let amountMoney := NewResetCurrency amount b.Currency
    let li : LineItem :=
      { IdempotencyKey := idempotencyKey, Description := description,
        Amount := amountMoney, AddedAt := updatedAt }
    ({ b with
        Items := b.Items ++ [li],
        Total := b.Total.Add [li.Amount],
        UpdatedAt := updatedAt }, none)

/-- Model of `Bill.Pending`: transition to `PENDING` with the (trivial)
example guard, then update `UpdatedAt`. -/
def Bill.Pending (b : Bill) (now : Int) : Bill × Option BillErr :=
  match b.Transition BillStatusPending [fun _ => none] with
  | (b2, none) => ({ b2 with UpdatedAt := now }, none)
  | (b2, some e) => (b2, some e)

/-- Model of `Bill.Close`: transition to `CLOSED`, then set `UpdatedAt`
and `FinalizedAt`. -/
def Bill.Close (b : Bill) (closedAt : Int) : Bill × Option BillErr :=
  match b.Transition BillStatusClosed [] with
  | (b2, none) => ({ b2 with UpdatedAt := closedAt, FinalizedAt := some closedAt }, none)
  | (b2, some e) => (b2, some e)

/-- Model of `Bill.IsActive`: only `OPEN` is active. -/
def Bill.IsActive (b : Bill) : Bool := b.Status == BillStatusOpen

/-- Model of `Bill.Error`: an early no-op return for every inactive bill
(the Go guard is `!b.IsActive()`, which covers `PENDING`, `CLOSED`,
`ERROR` and the unknown status); otherwise `FinalizedAt` is set first and
the transition to `ERROR` runs afterwards. -/
def Bill.Error (b : Bill) (closedAt : Int) : Bill × Option BillErr :=
  if !b.IsActive then (b, none)
  else
    let b1 := { b with FinalizedAt := some closedAt }
    b1.Transition BillStatusError []

/-- Model of `Bill.IsReadyForInvoicing`. -/
def Bill.IsReadyForInvoicing (b : Bill) : Bool := b.Status == BillStatusPending

/-- Model of `Bill.RecalcTotal`: a fresh sum of the item amounts starting
from a zero of the bill currency. -/
def Bill.RecalcTotal (b : Bill) : Money :=
  b.Items.foldl (fun sum li => sum.Add [li.Amount]) (NewFromInt 0 b.Currency)

/-- Model of the strict `YYYY-MM` pattern `reYYYYMM`
(`^\d{4}-(0[1-9]|1[0-2])$`). -/
def matchYYYYMM (p : String) : Bool :=
  match p.data with
  | [y1, y2, y3, y4, dash, m1, m2] =>
    y1.isDigit && y2.isDigit && y3.isDigit && y4.isDigit && dash == '-' &&
      ((m1 == '0' && (m2.isDigit && !(m2 == '0'))) ||
        (m1 == '1' && (m2 == '0' || m2 == '1' || m2 == '2')))
  | _ => false

/-- Model of `domain.BillBuilder`. -/
structure BillBuilder where
  id : String
  customerID : String
  currency : Currency
  period : String
  status : BillStatus
  items : List LineItem
  createdAt : Option Int
deriving DecidableEq, Repr

/-- Model of `domain.NewBillBuilder` (status `OPEN`, no items, remaining
fields at their Go zero values). -/
def NewBillBuilder : BillBuilder :=
  { id := "", customerID := "", currency := "", period := "",
    status := BillStatusOpen, items := [], createdAt := none }

/-- Model of `BillBuilder.WithID`. -/
def BillBuilder.WithID (b : BillBuilder) (id : String) : BillBuilder :=
  { b with id := id }

/-- Model of `BillBuilder.ForCustomer`. -/
def BillBuilder.ForCustomer (b : BillBuilder) (customerID : String) : BillBuilder :=
  { b with customerID := customerID }

/-- Model of `BillBuilder.WithCurrency`. -/
def BillBuilder.WithCurrency (b : BillBuilder) (c : Currency) : BillBuilder :=
  { b with currency := c }

/-- Model of `BillBuilder.ForPeriod`. -/
def BillBuilder.ForPeriod (b : BillBuilder) (p : String) : BillBuilder :=
  { b with period := p }

/-- Model of `BillBuilder.WithCreatedAt`. -/
def BillBuilder.WithCreatedAt (b : BillBuilder) (t : Int) : BillBuilder :=
  { b with createdAt := some t }

/-- Model of `BillBuilder.Open`. -/
def BillBuilder.Open (b : BillBuilder) : BillBuilder :=
  { b with status := BillStatusOpen }

/-- Model of `BillBuilder.Closed`. -/
def BillBuilder.Closed (b : BillBuilder) : BillBuilder :=
  { b with status := BillStatusClosed }

/-- Model of `BillBuilder.AddItem`. -/
def BillBuilder.AddItem (b : BillBuilder) (li : LineItem) : BillBuilder :=
  { b with items := b.items ++ [li] }

/-- Model of `BillBuilder.Build`: required-field validation, then the
initial total is parsed from the string `"0"` in the bill currency and
the pre-supplied items are folded in. -/
def BillBuilder.Build (bb : BillBuilder) : Except String Bill :=
  if bb.id == "" then .error "id is required"
  else if bb.customerID == "" then .error "customerID is required"
  else if !(SupportedCurrency bb.currency) then .error "currency must be USD or GEL"
  else if !(matchYYYYMM bb.period) then .error "billing period must be YYYY-MM"
  else
    match bb.createdAt with
    | none => .error "createdAt is required"
    | some t =>
      match libmoney.NewFromString ("0".data) bb.currency with
      | .error _ => .error "total conversion error"
      | .ok zero =>
        let total := bb.items.foldl (fun acc item => acc.Add [item.Amount]) zero
        .ok { ID := bb.id, CustomerID := bb.customerID, Currency := bb.currency,
              BillingPeriod := bb.period, Status := bb.status, Items := bb.items,
              Total := total, CreatedAt := t, UpdatedAt := t, FinalizedAt := none }

end domain

namespace libtime

open decimal

/-- ASCII whitespace trimmed by `strings.TrimSpace` (the inputs of
interest are ASCII; Go additionally trims non-ASCII Unicode spaces). -/
def isSpaceChar (c : Char) : Bool :=
  c == ' ' || c == '\t' || c == '\n' || c == Char.ofNat 11 ||
    c == Char.ofNat 12 || c == '\r'

/-- Model of `strings.TrimSpace`. -/
def trimSpace (l : List Char) : List Char :=
  ((l.dropWhile isSpaceChar).reverse.dropWhile isSpaceChar).reverse

/-- Model of `time.Parse("2006-01", s)` restricted to what the layout
accepts: exactly four year digits, a dash, and a zero-padded month
between 01 and 12; anything else is a parse error. -/
def parseYearMonth (s : List Char) : Option (Int × Int) :=
  match s with
  | [y1, y2, y3, y4, dash, m1, m2] =>
    if allDigits [y1, y2, y3, y4] && dash == '-' && allDigits [m1, m2] then
      let y := valDigits [y1, y2, y3, y4]
      let m := valDigits [m1, m2]
      if 1 ≤ m ∧ m ≤ 12 then some ((y : Int), (m : Int)) else none
    else none
  | _ => none

/-- Model of `libs/time.ToYYYYMMNullable`: the empty period means "no
filter" (`none` without error); otherwise the trimmed period must parse
as `YYYY-MM` and is encoded as the integer `y*100 + m`. -/
def ToYYYYMMNullable (period : String) : Except String (Option Int) :=
  if period == "" then .ok none
  else
    match parseYearMonth (trimSpace period.data) with
    | none => .error "invalid period (want YYYY-MM)"
    | some (y, m) => .ok (some (y * 100 + m))

end libtime

namespace workflows

open libmoney domain

/-- Model of `workflows.moneyToCents`: multiply by the decimal
`10^2`, round to 0 places (half away from zero) and take the integer
part.  The Go function returns an `int64`: the value passes through
`big.Int.Int64()` inside `IntPart`, so it is faithful only up to the
`int64` wrap modelled there. -/
def moneyToCents (m : Money) : Int :=
  ((m.MulOnDecimal (decimal.New 1 2)).Round 0).IntPart

/-- Model of the tail of `MonthlyFeeAccrualWorkflow` after the event
loop has exited (bill no longer active): if the bill is not ready for
invoicing it is returned as-is; otherwise the finalization activity runs
(its outcome is the `activityErr` parameter, the external
`DoInvoicesActivities` result).  On failure the workflow calls
`bill.Error(now)` — whose own error is only logged — and returns the
bill with the activity error; on success it calls `bill.Close(now)` —
whose error is also only logged — and returns the bill with no error.
The search-attribute upserts are external side effects with no influence
on the returned bill. -/
def finalizationPhase (bill : Bill) (activityErr : Option String) (now : Int) :
    Bill × Option String :=
  if !bill.IsReadyForInvoicing then (bill, none)
  else
    match activityErr with
    | some e =>
      let res := bill.Error now
      (res.1, some e)
    | none =>
      let res := bill.Close now
      (res.1, none)

end workflows

namespace usecases

open domain

/-- Model of `usecases.SearchBillCmd`. -/
structure SearchBillCmd where
  CustomerID : String
  PeriodFrom : String
  PeriodTo : String
  Status : String
deriving DecidableEq, Repr

/-- Model of `app.SearchBillFilter` (`*int64` fields as `Option Int`). -/
structure SearchBillFilter where
  CustomerID : String
  FromYYYYMM : Option Int
  ToYYYYMM : Option Int
  Status : List String
deriving DecidableEq, Repr

/-- Model of `SearchBill.Handle` up to the `T.SearchBills` port call: the
period bounds are converted (errors propagate), the status list starts
from the requested status and `PENDING` is appended when the requested
status is `OPEN`, and the assembled filter is what is passed to the
index query.  The port call itself is an external side effect, so the
model returns the filter. -/
def SearchBillHandleFilter (c : SearchBillCmd) : Except String SearchBillFilter :=
  match libtime.ToYYYYMMNullable c.PeriodFrom with
  | .error e => .error e
  | .ok fromInt =>
    match libtime.ToYYYYMMNullable c.PeriodTo with
    | .error e => .error e
    | .ok toInt =>
      let statuses := [c.Status]
      let statuses :=
        if c.Status == BillStatusOpen then statuses ++ [BillStatusPending]
        else statuses
      .ok { CustomerID := c.CustomerID, FromYYYYMM := fromInt,
            ToYYYYMM := toInt, Status := statuses }

end usecases

namespace libmoney

/-- The JSON object written by `Money.MarshalJSON` and read by
`Money.UnmarshalJSON`, at the field level: `Value` is `none` for an
absent or `null` JSON value and `some s` for a JSON string (or number)
whose unquoted content is `s`; `Currency` is the currency string.  The
transport of these two fields through `encoding/json` is assumed
faithful. -/
structure MoneyJSON where
  Value : Option String
  Currency : String
deriving DecidableEq, Repr

/-- Model of `Money.MarshalJSON`: the magnitude is emitted as the string
produced by `Decimal.String()` and the currency as its string. -/
def Money.MarshalJSON (m : Money) : MoneyJSON :=
  { Value := some m.value.toGoString, Currency := m.currency }

/-- Model of `Money.UnmarshalJSON`: an absent or `null` value parses as
the zero decimal; otherwise the content is parsed by the decimal
parser (`decimal.UnmarshalJSON` unquotes and calls
`decimal.NewFromString`); the currency string is adopted as-is. -/
def Money.UnmarshalJSON (j : MoneyJSON) : Except String Money :=
  match j.Value with
  | none => .ok (NewFomDecimal decimal.Zero j.Currency)
  | some s =>
    match decimal.NewFromString s.data with
    | .error msg => .error msg
    | .ok d => .ok (NewFomDecimal d j.Currency)

end libmoney

section ConcreteInstances

open libmoney domain

/-- A builder for a `CLOSED` bill, as in the "add item to a Bill already
in CLOSED status" scenario. -/
def bbClosed1 : BillBuilder :=
  (((((NewBillBuilder.WithID "b1").ForCustomer "c1").WithCurrency
    CurrencyUSD).ForPeriod "2025-01").WithCreatedAt 0).Closed

/-- The bill produced by `bbClosed1.Build`. -/
def billClosed1 : Bill :=
  { ID := "b1", CustomerID := "c1", Currency := CurrencyUSD,
    BillingPeriod := "2025-01", Status := BillStatusClosed, Items := [],
    Total := { value := ⟨0, 0⟩, currency := CurrencyUSD },
    CreatedAt := 0, UpdatedAt := 0, FinalizedAt := none }

/-- A builder for an `OPEN` bill used in the workflow-failure scenario. -/
def bbOpen1 : BillBuilder :=
  ((((NewBillBuilder.WithID "b2").ForCustomer "c2").WithCurrency
    CurrencyUSD).ForPeriod "2025-02").WithCreatedAt 0

/-- The bill produced by `bbOpen1.Build`. -/
def billOpen1 : Bill :=
  { ID := "b2", CustomerID := "c2", Currency := CurrencyUSD,
    BillingPeriod := "2025-02", Status := BillStatusOpen, Items := [],
    Total := { value := ⟨0, 0⟩, currency := CurrencyUSD },
    CreatedAt := 0, UpdatedAt := 0, FinalizedAt := none }

/-- `billOpen1` after `Pending(5)`: the state of a bill whose close
signal has been consumed, just before finalization runs. -/
def billPending1 : Bill :=
  { ID := "b2", CustomerID := "c2", Currency := CurrencyUSD,
    BillingPeriod := "2025-02", Status := BillStatusPending, Items := [],
    Total := { value := ⟨0, 0⟩, currency := CurrencyUSD },
    CreatedAt := 0, UpdatedAt := 5, FinalizedAt := none }

/-- The transition table of spec §4.2, as the set of ordered pairs
(current status, target status) named by the claim. -/
def allowedPairs : List (BillStatus × BillStatus) :=
  [(BillStatusUnknown, BillStatusError), (BillStatusOpen, BillStatusPending),
   (BillStatusOpen, BillStatusError), (BillStatusPending, BillStatusClosed),
   (BillStatusPending, BillStatusError), (BillStatusError, BillStatusError)]

/-- One add-item request, as applied through signals to a bill. -/
structure AddItemReq where
  key : String
  desc : String
  amount : Money
  now : Int
deriving DecidableEq, Repr

/-- Applies a sequence of `AddItem` calls; a failed call leaves the bill
unchanged, exactly as the Go method does. -/
def applyAddItems (b : Bill) : List AddItemReq → Bill
  | [] => b
  | r :: rs => applyAddItems (b.AddItem r.key r.desc r.amount r.now).1 rs

end ConcreteInstances

section TransitionTheorems

open libmoney domain

theorem allowed_iff_mem_allowedPairs (s d : BillStatus) :
    allowed s d = true ↔ (s, d) ∈ allowedPairs := by
  unfold allowed allowedPairs
  split_ifs with h1 h2 h3 h4 h5 <;>
    simp_all [List.mem_cons, Prod.ext_iff, beq_iff_eq,
      BillStatusUnknown, BillStatusOpen, BillStatusPending,
      BillStatusClosed, BillStatusError]

/-- Claim C3: for every Bill and target status, `Transition(to)` (with no
guards) succeeds exactly when the target equals the current status or
the pair (current, target) is in the transition table
{UNKNOWN→ERROR, OPEN→PENDING, OPEN→ERROR, PENDING→CLOSED,
PENDING→ERROR, ERROR→ERROR}; on success only the status is assigned, and
on rejection the invalid-transition error is returned with the bill
unchanged. -/
theorem transition_succeeds_iff_table (b : Bill) (dst : BillStatus) :
    ((b.Transition dst []).2 = none ↔
      dst = b.Status ∨ (b.Status, dst) ∈ allowedPairs) ∧
    ((b.Transition dst []).2 = none →
      (b.Transition dst []).1 = { b with Status := dst }) ∧
    ((b.Transition dst []).2 ≠ none →
      (b.Transition dst []).2 = some (BillErr.invalidTransition b.Status dst) ∧
        (b.Transition dst []).1 = b) := by
  have hiff := allowed_iff_mem_allowedPairs b.Status dst
  unfold Bill.Transition checkGuards
  by_cases hself : b.Status = dst
  · simp [hself]
  · by_cases hall : allowed b.Status dst = true
    · simp [hall, hiff.mp hall, beq_iff_eq]
    · have : ¬((b.Status, dst) ∈ allowedPairs) := fun hm => hall (hiff.mpr hm)
      simp [hall, beq_iff_eq, hself, this, Bool.and_eq_true]
      intro h
      exact absurd h.symm hself

/-- Claim C3 witness: a rejected transition (CLOSED → PENDING) returns
the invalid-transition error and leaves the bill unchanged, and an
accepted one (PENDING → CLOSED) succeeds. -/
theorem transition_succeeds_iff_table_witness :
    ((billClosed1.Transition BillStatusPending []).2 =
      some (BillErr.invalidTransition BillStatusClosed BillStatusPending) ∧
      (billClosed1.Transition BillStatusPending []).1 = billClosed1) ∧
    (billPending1.Transition BillStatusClosed []).2 = none :=
  ⟨(transition_succeeds_iff_table billClosed1 BillStatusPending).2.2 (by decide),
    ((transition_succeeds_iff_table billPending1 BillStatusClosed).1).mpr
      (by decide)⟩

end TransitionTheorems

section AddItemTheorems

open libmoney domain

/-- Claim C4 counterexample: on a `CLOSED` bill produced by the builder,
`AddItem` with an empty idempotency key returns the empty-idempotency-key
error — not the not-open error the claim asserts for every input — while
the bill is indeed not `OPEN`. -/
theorem addItem_closed_empty_key_counterexample :
    bbClosed1.Build = .ok billClosed1 ∧
    billClosed1.Status ≠ BillStatusOpen ∧
    billClosed1.AddItem "" "desc" (NewFromInt 5 CurrencyUSD) 3 =
      (billClosed1, some BillErr.emptyIdempotencyKey) ∧
    BillErr.emptyIdempotencyKey ≠ BillErr.billNotOpen :=
  ⟨rfl, by decide, rfl, by decide⟩

/-- Claim C4 (amended): for every Bill whose status is not `OPEN` and
every input with a NON-EMPTY idempotency key, `AddItem` returns the
not-open error and leaves the bill completely unchanged; with an empty
key it returns the empty-idempotency-key error instead, likewise leaving
the bill unchanged. -/
theorem addItem_not_open_unchanged (b : Bill) (key d : String) (a : Money)
    (t : Int) (hs : b.Status ≠ BillStatusOpen) :
    (key ≠ "" → b.AddItem key d a t = (b, some BillErr.billNotOpen)) ∧
    (key = "" → b.AddItem key d a t = (b, some BillErr.emptyIdempotencyKey)) := by
  constructor
  · intro hk
    unfold Bill.AddItem
    simp [hk, hs, beq_iff_eq]
  · intro hk
    unfold Bill.AddItem
    simp [hk]

/-- Claim C4 witness: the amended statement evaluated on the concrete
`CLOSED` bill, for a non-empty and for an empty key. -/
theorem addItem_not_open_unchanged_witness :
    billClosed1.AddItem "k9" "d" (NewFromInt 5 CurrencyUSD) 3 =
      (billClosed1, some BillErr.billNotOpen) ∧
    billClosed1.AddItem "" "d" (NewFromInt 5 CurrencyUSD) 3 =
      (billClosed1, some BillErr.emptyIdempotencyKey) :=
  ⟨(addItem_not_open_unchanged billClosed1 "k9" "d" (NewFromInt 5 CurrencyUSD) 3
      (by decide)).1 (by decide),
    (addItem_not_open_unchanged billClosed1 "" "d" (NewFromInt 5 CurrencyUSD) 3
      (by decide)).2 rfl⟩

/-- Claim C5: `AddItem` is idempotent on the idempotency key.  Starting
from an `OPEN` bill with no item keyed `k`, a first `AddItem` succeeds;
a second `AddItem` with the same key (any description, amount and
timestamp) returns success and leaves the bill unchanged, so exactly one
item with key `k` is stored, carrying the first call's description and
(currency-normalized) amount, and the second call leaves `Total`
unchanged. -/
theorem addItem_idempotent_on_key (b : Bill) (k d1 d2 : String) (a1 a2 : Money)
    (t1 t2 : Int) (hopen : b.Status = BillStatusOpen) (hk : k ≠ "")
    (hnew : ∀ li ∈ b.Items, li.IdempotencyKey ≠ k) :
    (b.AddItem k d1 a1 t1).2 = none ∧
    (b.AddItem k d1 a1 t1).1.AddItem k d2 a2 t2 = ((b.AddItem k d1 a1 t1).1, none) ∧
    (b.AddItem k d1 a1 t1).1.Items.filter (fun li => li.IdempotencyKey == k) =
      [{ IdempotencyKey := k, Description := d1,
         Amount := NewResetCurrency a1 b.Currency, AddedAt := t1 }] ∧
    ((b.AddItem k d1 a1 t1).1.AddItem k d2 a2 t2).1.Total =
      (b.AddItem k d1 a1 t1).1.Total := by
  have hany : b.Items.any (fun li => li.IdempotencyKey == k) = false := by
    rw [List.any_eq_false]
    intro li hli
    simpa using hnew li hli
  have hb1 : b.AddItem k d1 a1 t1 =
      ({ b with
          Items := b.Items ++
            [{ IdempotencyKey := k, Description := d1,
               Amount := NewResetCurrency a1 b.Currency, AddedAt := t1 }],
          Total := b.Total.Add [(NewResetCurrency a1 b.Currency)],
          UpdatedAt := t1 }, none) := by
    unfold Bill.AddItem
    simp [hk, hopen, hany]
  have hb2 : (b.AddItem k d1 a1 t1).1.AddItem k d2 a2 t2 =
      ((b.AddItem k d1 a1 t1).1, none) := by
    rw [hb1]
    unfold Bill.AddItem
    simp [hk, hopen, List.any_append]
  refine ⟨by rw [hb1], hb2, ?_, by rw [hb2]⟩
  rw [hb1]
  simp only [List.filter_append]
  have hnil : b.Items.filter (fun li => li.IdempotencyKey == k) = [] := by
    rw [List.filter_eq_nil_iff]
    intro li hli
    simpa using hnew li hli
  simp [hnil]

/-- Claim C5 witness: two adds with key `k1` and different descriptions
on a freshly built `OPEN` bill; the second is a successful no-op and one
item with the first description remains. -/
theorem addItem_idempotent_on_key_witness :
    (billOpen1.AddItem "k1" "fee" (NewFromInt 10 CurrencyUSD) 1).2 = none ∧
    (billOpen1.AddItem "k1" "fee" (NewFromInt 10 CurrencyUSD) 1).1.AddItem
      "k1" "other" (NewFromInt 7 CurrencyUSD) 2 =
      ((billOpen1.AddItem "k1" "fee" (NewFromInt 10 CurrencyUSD) 1).1, none) ∧
    (billOpen1.AddItem "k1" "fee" (NewFromInt 10 CurrencyUSD) 1).1.Items.filter
      (fun li => li.IdempotencyKey == "k1") =
      [{ IdempotencyKey := "k1", Description := "fee",
         Amount := NewResetCurrency (NewFromInt 10 CurrencyUSD) billOpen1.Currency,
         AddedAt := 1 }] ∧
    ((billOpen1.AddItem "k1" "fee" (NewFromInt 10 CurrencyUSD) 1).1.AddItem
      "k1" "other" (NewFromInt 7 CurrencyUSD) 2).1.Total =
      (billOpen1.AddItem "k1" "fee" (NewFromInt 10 CurrencyUSD) 1).1.Total :=
  addItem_idempotent_on_key billOpen1 "k1" "fee" "other"
    (NewFromInt 10 CurrencyUSD) (NewFromInt 7 CurrencyUSD) 1 2
    (by decide) (by decide) (by decide)

end AddItemTheorems

section CloseAndErrorTheorems

open libmoney domain

/-- Claim C7: for every Bill in `PENDING` status, `Close(now)` succeeds,
moves the status from `PENDING` to `CLOSED`, sets `FinalizedAt` to the
non-nil value `now` and `UpdatedAt` to `now`. -/
theorem close_pending_succeeds (b : Bill) (t : Int)
    (h : b.Status = BillStatusPending) :
    b.Close t =
      ({ b with
          Status := BillStatusClosed, UpdatedAt := t,
          FinalizedAt := some t }, none) := by
  unfold Bill.Close Bill.Transition checkGuards
  simp [h, allowed, BillStatusPending, BillStatusClosed, BillStatusOpen,
    BillStatusError]

/-- Claim C7 witness: closing the concrete pending bill at instant 9. -/
theorem close_pending_succeeds_witness :
    billPending1.Close 9 =
      ({ billPending1 with
          Status := BillStatusClosed, UpdatedAt := 9,
          FinalizedAt := some 9 }, none) :=
  close_pending_succeeds billPending1 9 (by decide)

/-- Claim C1 (code bug): `Error(now)` on a `PENDING` bill is a no-op —
the guard `!b.IsActive()` returns early for every non-`OPEN` status — so
it neither sets `FinalizedAt` nor transitions to `ERROR`, and when the
finalization activity fails the workflow's returned bill still has
status `PENDING`, not `ERROR`.  The bill below is reachable: it is built
by the builder and moved to `PENDING` by `Pending(5)`, exactly as the
workflow does on a close signal. -/
theorem error_is_noop_on_pending_bill :
    bbOpen1.Build = .ok billOpen1 ∧
    billOpen1.Pending 5 = (billPending1, none) ∧
    billPending1.Status = BillStatusPending ∧
    billPending1.Error 7 = (billPending1, none) ∧
    workflows.finalizationPhase billPending1 (some "invoice failed") 7 =
      (billPending1, some "invoice failed") ∧
    billPending1.Status ≠ BillStatusError ∧
    billPending1.FinalizedAt = none :=
  ⟨rfl, rfl, rfl, rfl, rfl, by decide, rfl⟩

end CloseAndErrorTheorems

section SearchTheorems

open domain usecases

/-- Claim C10: when the search use case runs with status filter `OPEN`,
the filter passed to the index query contains both `OPEN` and `PENDING`;
for every other status value it contains exactly that one status. -/
theorem searchBill_open_includes_pending (c : SearchBillCmd)
    (f : SearchBillFilter) (h : SearchBillHandleFilter c = .ok f) :
    (c.Status = BillStatusOpen → f.Status = [BillStatusOpen, BillStatusPending]) ∧
    (c.Status ≠ BillStatusOpen → f.Status = [c.Status]) := by
  unfold SearchBillHandleFilter at h
  rcases hfrom : libtime.ToYYYYMMNullable c.PeriodFrom with e | fi <;> rw [hfrom] at h
  · exact absurd h (by simp)
  rcases hto : libtime.ToYYYYMMNullable c.PeriodTo with e | ti <;> rw [hto] at h
  · exact absurd h (by simp)
  rw [Except.ok.injEq] at h
  subst h
  by_cases hs : c.Status = BillStatusOpen
  · constructor
    · intro _
      simp [hs]
    · intro hx
      exact absurd hs hx
  · constructor
    · intro hx
      exact absurd hx hs
    · intro _
      have hb : (c.Status == BillStatusOpen) = false := by
        simp [hs]
      simp [hb]

/-- Claim C10 witness: a command with status `OPEN` (and empty period
bounds) yields a filter containing `OPEN` and `PENDING`; one with status
`CLOSED` yields exactly `[CLOSED]`. -/
theorem searchBill_open_includes_pending_witness :
    ((⟨"c1", "", "", "OPEN"⟩ : SearchBillCmd).Status = BillStatusOpen →
      ({ CustomerID := "c1", FromYYYYMM := none, ToYYYYMM := none,
         Status := ["OPEN", "PENDING"] } : SearchBillFilter).Status =
        [BillStatusOpen, BillStatusPending]) ∧
    ((⟨"c1", "", "", "OPEN"⟩ : SearchBillCmd).Status ≠ BillStatusOpen →
      ({ CustomerID := "c1", FromYYYYMM := none, ToYYYYMM := none,
         Status := ["OPEN", "PENDING"] } : SearchBillFilter).Status =
        [(⟨"c1", "", "", "OPEN"⟩ : SearchBillCmd).Status]) :=
  searchBill_open_includes_pending ⟨"c1", "", "", "OPEN"⟩
    { CustomerID := "c1", FromYYYYMM := none, ToYYYYMM := none,
      Status := ["OPEN", "PENDING"] } rfl

end SearchTheorems

section TotalInvariantTheorems

open libmoney domain

theorem recalcTotal_addItem_preserved (b : Bill) (k d : String) (a : Money)
    (t : Int) (h : b.RecalcTotal = b.Total) :
    (b.AddItem k d a t).1.RecalcTotal = (b.AddItem k d a t).1.Total := by
  unfold Bill.AddItem
  split_ifs with h1 h2 h3
  · exact h
  · exact h
  · exact h
  · have hr : b.Items.foldl (fun sum li => sum.Add [li.Amount])
        (NewFromInt 0 b.Currency) = b.Total := h
    simp [Bill.RecalcTotal, List.foldl_append, hr]

theorem recalcTotal_build (bb : BillBuilder) (b : Bill)
    (h : bb.Build = .ok b) : b.RecalcTotal = b.Total := by
  unfold BillBuilder.Build at h
  split_ifs at h
  rcases hct : bb.createdAt with _ | t <;> rw [hct] at h
  · exact absurd h (by simp)
  · have hz : libmoney.NewFromString ("0".data) bb.currency =
        .ok { value := ⟨0, 0⟩, currency := bb.currency } := rfl
    rw [hz, Except.ok.injEq] at h
    subst h
    rfl

theorem recalcTotal_applyAddItems (reqs : List AddItemReq) (b : Bill)
    (h : b.RecalcTotal = b.Total) :
    (applyAddItems b reqs).RecalcTotal = (applyAddItems b reqs).Total := by
  induction reqs generalizing b with
  | nil => exact h
  | cons r rs ih =>
    exact ih _ (recalcTotal_addItem_preserved b r.key r.desc r.amount r.now h)

/-- Claim C2: for every Bill constructed by the builder and every
sequence of `AddItem` calls applied to it (each failed call leaves the
bill unchanged, as in the source), `RecalcTotal()` returns exactly the
incrementally maintained `Total` — in particular the magnitudes agree,
i.e. `Total` always equals the sum of the items' amounts. -/
theorem recalcTotal_eq_total (bb : BillBuilder) (b0 : Bill)
    (reqs : List AddItemReq) (hbuild : bb.Build = .ok b0) :
    (applyAddItems b0 reqs).RecalcTotal = (applyAddItems b0 reqs).Total ∧
    ((applyAddItems b0 reqs).RecalcTotal).magnitude =
      ((applyAddItems b0 reqs).Total).magnitude := by
  have h := recalcTotal_applyAddItems reqs b0 (recalcTotal_build bb b0 hbuild)
  exact ⟨h, by rw [h]⟩

/-- Claim C2 witness: building a bill and applying three add-item calls
(the third a duplicate key), the recomputed total equals the maintained
total. -/
theorem recalcTotal_eq_total_witness :
    (applyAddItems billOpen1
      [⟨"k1", "fee", { value := ⟨1050, -2⟩, currency := CurrencyUSD }, 1⟩,
       ⟨"k2", "fee2", { value := ⟨525, -2⟩, currency := CurrencyUSD }, 2⟩,
       ⟨"k1", "dup", { value := ⟨999, 0⟩, currency := CurrencyUSD }, 3⟩]).RecalcTotal =
    (applyAddItems billOpen1
      [⟨"k1", "fee", { value := ⟨1050, -2⟩, currency := CurrencyUSD }, 1⟩,
       ⟨"k2", "fee2", { value := ⟨525, -2⟩, currency := CurrencyUSD }, 2⟩,
       ⟨"k1", "dup", { value := ⟨999, 0⟩, currency := CurrencyUSD }, 3⟩]).Total :=
  (recalcTotal_eq_total bbOpen1 billOpen1
    [⟨"k1", "fee", { value := ⟨1050, -2⟩, currency := CurrencyUSD }, 1⟩,
     ⟨"k2", "fee2", { value := ⟨525, -2⟩, currency := CurrencyUSD }, 2⟩,
     ⟨"k1", "dup", { value := ⟨999, 0⟩, currency := CurrencyUSD }, 3⟩] rfl).1

end TotalInvariantTheorems

section DivTheorems

open libmoney

/-- Claim C6 counterexample: dividing Money 1 by the zero-magnitude
Money 0 reaches the decimal library's division-by-zero PANIC (modelled
as `none`); `Money.Div` performs no zero check and its Go signature has
no error return, so no error value is produced — refuting the claim that
division by a zero-magnitude Money is an error condition rather than a
panic. -/
theorem div_by_zero_panics_counterexample :
    (NewFromInt 1 CurrencyUSD).Div (NewFromInt 0 CurrencyUSD) = none ∧
    (NewFromInt 0 CurrencyUSD).magnitude = 0 := by
  refine ⟨rfl, ?_⟩
  simp [Money.magnitude, NewFromInt, decimal.NewFromInt, decimal.Decimal.val]

/-- Claim C6 (amended): for every Money `m` and every Money `d` of zero
magnitude, `m.Div(d)` panics (propagating the shopspring division-by-
zero panic, modelled as `none`); the operation is not total and returns
no error value. -/
theorem div_zero_magnitude_panics (m d : Money) (h : d.magnitude = 0) :
    m.Div d = none := by
  have hc : d.value.value = 0 := by
    unfold Money.magnitude decimal.Decimal.val at h
    rcases mul_eq_zero.mp h with h1 | h2
    · exact_mod_cast h1
    · exact absurd h2 (zpow_ne_zero _ (by norm_num))
  unfold Money.Div decimal.Decimal.Div
  simp [hc]

/-- Claim C6 witness: the amended statement at Money 3 divided by a zero
magnitude written with a non-zero exponent. -/
theorem div_zero_magnitude_panics_witness :
    (NewFromInt 3 CurrencyUSD).Div { value := ⟨0, 5⟩, currency := CurrencyUSD } =
      none :=
  div_zero_magnitude_panics (NewFromInt 3 CurrencyUSD)
    { value := ⟨0, 5⟩, currency := CurrencyUSD }
    (by simp [Money.magnitude, decimal.Decimal.val])

end DivTheorems

section RoundingTheorems

open decimal libmoney

theorem ratRound_nonneg_nearest (q : ℚ) :
    |(⌊q + 1 / 2⌋ : ℚ) - q| ≤ 1 / 2 := by
  have h1 : (⌊q + 1 / 2⌋ : ℚ) ≤ q + 1 / 2 := Int.floor_le _
  have h2 : q + 1 / 2 < (⌊q + 1 / 2⌋ : ℚ) + 1 := Int.lt_floor_add_one _
  rw [abs_le]
  constructor <;> linarith

theorem ratRound_nonneg_tie (q : ℚ) (k : ℤ) (hq : 0 ≤ q)
    (hk : |(k : ℚ) - q| ≤ 1 / 2) (hne : k ≠ ⌊q + 1 / 2⌋) :
    |(k : ℚ)| < |(⌊q + 1 / 2⌋ : ℚ)| := by
  rw [abs_le] at hk
  have h1 : (⌊q + 1 / 2⌋ : ℚ) ≤ q + 1 / 2 := Int.floor_le _
  have hkr : k ≤ ⌊q + 1 / 2⌋ := Int.le_floor.mpr (by linarith [hk.2])
  have hk3 : k ≤ ⌊q + 1 / 2⌋ - 1 := by
    rcases lt_of_le_of_ne hkr hne with h
    omega
  have hcast : (k : ℚ) ≤ (⌊q + 1 / 2⌋ : ℚ) - 1 := by exact_mod_cast hk3
  have he1 : (k : ℚ) = (⌊q + 1 / 2⌋ : ℚ) - 1 := le_antisymm hcast (by linarith [hk.1])
  have heq : q = (⌊q + 1 / 2⌋ : ℚ) - 1 / 2 := by linarith [hk.1]
  have hrpos : (1 : ℤ) ≤ ⌊q + 1 / 2⌋ := by
    by_contra hcon
    push_neg at hcon
    have hr0 : ⌊q + 1 / 2⌋ ≤ 0 := by omega
    have : ((⌊q + 1 / 2⌋ : ℤ) : ℚ) ≤ 0 := by exact_mod_cast hr0
    linarith
  have hr1 : (1 : ℚ) ≤ (⌊q + 1 / 2⌋ : ℚ) := by exact_mod_cast hrpos
  have hk0 : (0 : ℚ) ≤ (k : ℚ) := by linarith
  rw [abs_of_nonneg hk0, abs_of_nonneg (by linarith)]
  linarith

theorem ratRound_nearest (q : ℚ) :
    |(ratRoundHalfAway q : ℚ) - q| ≤ 1 / 2 := by
  unfold ratRoundHalfAway
  by_cases hq : 0 ≤ q
  · rw [if_pos hq]
    exact ratRound_nonneg_nearest q
  · rw [if_neg hq]
    have h := ratRound_nonneg_nearest (-q)
    have heq : ((-⌊-q + 1 / 2⌋ : ℤ) : ℚ) - q = -((⌊-q + 1 / 2⌋ : ℚ) - -q) := by
      push_cast
      ring
    rw [heq, abs_neg]
    exact h

theorem ratRound_tie (q : ℚ) (k : ℤ) (hk : |(k : ℚ) - q| ≤ 1 / 2)
    (hne : k ≠ ratRoundHalfAway q) :
    |(k : ℚ)| < |(ratRoundHalfAway q : ℚ)| := by
  unfold ratRoundHalfAway at hne ⊢
  by_cases hq : 0 ≤ q
  · rw [if_pos hq] at hne ⊢
    exact ratRound_nonneg_tie q k hq hk hne
  · rw [if_neg hq] at hne ⊢
    push_neg at hq
    have hk2 : |((-k : ℤ) : ℚ) - -q| ≤ 1 / 2 := by
      have heq : ((-k : ℤ) : ℚ) - -q = -((k : ℚ) - q) := by
        push_cast
        ring
      rw [heq, abs_neg]
      exact hk
    have hne2 : -k ≠ ⌊-q + 1 / 2⌋ := by omega
    have h := ratRound_nonneg_tie (-q) (-k) (by linarith) hk2 hne2
    have e1 : |(k : ℚ)| = |((-k : ℤ) : ℚ)| := by
      push_cast
      rw [abs_neg]
    have e2 : |((-⌊-q + 1 / 2⌋ : ℤ) : ℚ)| = |(⌊-q + 1 / 2⌋ : ℚ)| := by
      push_cast
      rw [abs_neg]
    rw [e1, e2]
    exact h

theorem ratRound_intCast (n : ℤ) : ratRoundHalfAway (n : ℚ) = n := by
  have hhalf : ⌊(1 / 2 : ℚ)⌋ = 0 := by
    rw [Int.floor_eq_iff]
    norm_num
  unfold ratRoundHalfAway
  by_cases h : (0 : ℚ) ≤ (n : ℚ)
  · rw [if_pos h, Int.floor_int_add, hhalf]
    omega
  · rw [if_neg h]
    have hc : -(n : ℚ) + 1 / 2 = ((-n : ℤ) : ℚ) + 1 / 2 := by
      push_cast
      ring
    rw [hc, Int.floor_int_add, hhalf]
    omega

theorem int64wrap_eq_self (z : Int) (h1 : -(2 ^ 63) ≤ z) (h2 : z < 2 ^ 63) :
    int64wrap z = z := by
  unfold int64wrap
  have h63 : (2 : ℤ) ^ 63 = 9223372036854775808 := by norm_num
  have h64 : (2 : ℤ) ^ 64 = 18446744073709551616 := by norm_num
  rw [h63, h64] at *
  omega

theorem moneyToCents_eq_ratRound (m : Money) :
    workflows.moneyToCents m = int64wrap (ratRoundHalfAway (m.magnitude * 100)) := by
  have h100 : (10 : ℚ) ^ (2 : ℤ) = 100 := by
    rw [show ((2 : ℤ)) = ((2 : ℕ) : ℤ) from rfl, zpow_natCast]
    norm_num
  unfold workflows.moneyToCents Money.MulOnDecimal Money.Round Money.IntPart
    decimal.New Decimal.Mul Decimal.Round Decimal.IntPart
  congr 1
  unfold Decimal.truncated
  by_cases he : m.value.exp + 2 = -0
  · rw [if_pos he]
    have he2 : m.value.exp = -2 := by omega
    have hq : m.magnitude * 100 = ((m.value.value * 1 : ℤ) : ℚ) := by
      unfold Money.magnitude Decimal.val
      rw [he2]
      rw [show ((-2 : ℤ)) = -(2 : ℤ) from rfl, zpow_neg, h100]
      push_cast
      field_simp
    rw [hq, ratRound_intCast]
    simp [he]
  · rw [if_neg he]
    have hval : ({ value := m.value.value * 1, exp := m.value.exp + 2 } :
        Decimal).val * (10 : ℚ) ^ (0 : ℤ) = m.magnitude * 100 := by
      unfold Decimal.val Money.magnitude Decimal.val
      rw [zpow_add₀ (by norm_num : (10 : ℚ) ≠ 0) m.value.exp 2, h100]
      push_cast
      ring
    rw [hval]
    simp

/-- Claim C9: the total published to the visibility projection,
`moneyToCents(m)`, is the integer nearest to the magnitude of `m` times
100, with ties (exactly half a minor unit) rounded away from zero: it
lies within half a unit of `m*100`, and any other integer equally close
has strictly smaller absolute value.  The hypothesis keeps the published
value inside the `int64` range of the Go return type (`moneyToCents`
passes through `big.Int.Int64()`); outside it the Go result is the
wrapped value and cannot be the nearest integer. -/
theorem moneyToCents_nearest_half_away (m : Money)
    (hrange : |m.magnitude * 100| ≤ 2 ^ 63 - 1) :
    |(workflows.moneyToCents m : ℚ) - m.magnitude * 100| ≤ 1 / 2 ∧
    ∀ k : ℤ, |(k : ℚ) - m.magnitude * 100| ≤ 1 / 2 →
      k ≠ workflows.moneyToCents m →
      |(k : ℚ)| < |(workflows.moneyToCents m : ℚ)| := by
  have hr := ratRound_nearest (m.magnitude * 100)
  have hlo : -(2 ^ 63) ≤ ratRoundHalfAway (m.magnitude * 100) := by
    rw [abs_le] at hr hrange
    have hq : (-(2 ^ 63 : ℤ) : ℚ) ≤ ((ratRoundHalfAway (m.magnitude * 100) : ℤ) : ℚ) := by
      push_cast
      linarith [hr.1, hrange.1]
    exact_mod_cast hq
  have hhi : ratRoundHalfAway (m.magnitude * 100) < 2 ^ 63 := by
    rw [abs_le] at hr hrange
    have hq : ((ratRoundHalfAway (m.magnitude * 100) : ℤ) : ℚ) < ((2 ^ 63 : ℤ) : ℚ) := by
      push_cast
      linarith [hr.2, hrange.2]
    exact_mod_cast hq
  have key : workflows.moneyToCents m = ratRoundHalfAway (m.magnitude * 100) := by
    rw [moneyToCents_eq_ratRound]
    exact int64wrap_eq_self _ hlo hhi
  rw [key]
  exact ⟨ratRound_nearest _, fun k hk hne => ratRound_tie _ k hk hne⟩

theorem magnitude125_times_100 :
    ({ value := ⟨125, -3⟩, currency := CurrencyUSD } : Money).magnitude * 100 =
      25 / 2 := by
  unfold Money.magnitude Decimal.val
  rw [show ((-3 : ℤ)) = -(3 : ℤ) from rfl, zpow_neg,
    show ((3 : ℤ)) = ((3 : ℕ) : ℤ) from rfl, zpow_natCast]
  norm_num

theorem moneyToCents125 :
    workflows.moneyToCents { value := ⟨125, -3⟩, currency := CurrencyUSD } = 13 := by
  rw [moneyToCents_eq_ratRound, magnitude125_times_100]
  have h13 : ratRoundHalfAway (25 / 2 : ℚ) = 13 := by
    unfold ratRoundHalfAway
    rw [if_pos (by norm_num)]
    rw [show (25 / 2 + 1 / 2 : ℚ) = ((13 : ℤ) : ℚ) by norm_num, Int.floor_intCast]
  rw [h13]
  exact int64wrap_eq_self 13 (by norm_num) (by norm_num)

/-- Claim C9 witness: for magnitude 0.125 USD (12.5 minor units) the
published cents value is within half a unit, and the equally-close
integer 12 loses the tie to the away-from-zero value (13). -/
theorem moneyToCents_nearest_half_away_witness :
    |(workflows.moneyToCents { value := ⟨125, -3⟩, currency := CurrencyUSD } : ℚ) -
      ({ value := ⟨125, -3⟩, currency := CurrencyUSD } : Money).magnitude * 100| ≤ 1 / 2 ∧
    |((12 : ℤ) : ℚ)| <
      |(workflows.moneyToCents { value := ⟨125, -3⟩, currency := CurrencyUSD } : ℚ)| :=
  ⟨(moneyToCents_nearest_half_away _
      (by rw [magnitude125_times_100, abs_le]; norm_num)).1,
    (moneyToCents_nearest_half_away
        { value := ⟨125, -3⟩, currency := CurrencyUSD }
        (by rw [magnitude125_times_100, abs_le]; norm_num)).2 12
      (by rw [magnitude125_times_100, abs_le]; norm_num)
      (by rw [moneyToCents125]; decide)⟩

end RoundingTheorems

section StringRoundTripTheorems

open decimal libmoney

theorem charToDigit_digitChar (d : Nat) (h : d < 10) :
    charToDigit (digitChar d) = some d := by
  interval_cases d <;> rfl

theorem natCharsAux_eq (fuel n : Nat) (h : n ≤ fuel) :
    natCharsAux fuel n = ((Nat.digits 10 n).reverse).map digitChar := by
  induction fuel generalizing n with
  | zero =>
    have : n = 0 := by omega
    subst this
    simp [natCharsAux]
  | succ fuel ih =>
    rw [natCharsAux]
    by_cases hn : n = 0
    · subst hn
      simp
    · rw [if_neg hn]
      have hdiv : n / 10 ≤ fuel := by
        have := Nat.div_lt_self (Nat.pos_of_ne_zero hn) (by norm_num : 1 < 10)
        omega
      rw [ih (n / 10) hdiv,
        Nat.digits_def' (by norm_num : 1 < 10) (Nat.pos_of_ne_zero hn),
        List.reverse_cons, List.map_append]
      rfl

theorem natChars_eq (n : Nat) : natChars n =
    if n = 0 then ['0'] else ((Nat.digits 10 n).reverse).map digitChar := by
  unfold natChars
  by_cases hn : n = 0
  · simp [hn]
  · rw [if_neg hn, if_neg hn, natCharsAux_eq n n le_rfl]

theorem allDigits_natChars (n : Nat) : allDigits (natChars n) = true := by
  rw [natChars_eq]
  split
  · decide
  · rw [allDigits, List.all_eq_true]
    intro c hc
    rcases List.mem_map.mp hc with ⟨d, hd, rfl⟩
    have hlt : d < 10 :=
      Nat.digits_lt_base (by norm_num) (List.mem_reverse.mp hd)
    rw [charToDigit_digitChar d hlt]
    rfl

theorem valFold_eq (l : List Char) (a : Nat) :
    l.foldl (fun a c => a * 10 + (charToDigit c).getD 0) a =
      a * 10 ^ l.length + valDigits l := by
  induction l generalizing a with
  | nil => simp [valDigits]
  | cons c l ih =>
    have hv : valDigits (c :: l) =
        (charToDigit c).getD 0 * 10 ^ l.length + valDigits l := by
      unfold valDigits
      rw [List.foldl_cons, ih]
      simp [valDigits]
    rw [List.foldl_cons, ih, hv, List.length_cons]
    ring

theorem valDigits_append (A B : List Char) :
    valDigits (A ++ B) = valDigits A * 10 ^ B.length + valDigits B := by
  unfold valDigits
  rw [List.foldl_append]
  exact valFold_eq B _

theorem valDigits_ofDigits (l : List Nat) (h : ∀ d ∈ l, d < 10) :
    valDigits (l.reverse.map digitChar) = Nat.ofDigits 10 l := by
  induction l with
  | nil => rfl
  | cons x l ih =>
    have hx : x < 10 := h x (by simp)
    have hone : valDigits [digitChar x] = x := by
      unfold valDigits
      simp [charToDigit_digitChar x hx]
    rw [List.reverse_cons, List.map_append, valDigits_append]
    simp only [List.map_cons, List.map_nil, List.length_cons, List.length_nil]
    rw [hone, ih (fun d hd => h d (by simp [hd])), Nat.ofDigits_cons]
    ring

theorem valDigits_natChars (n : Nat) : valDigits (natChars n) = n := by
  rw [natChars_eq]
  split
  · simp_all [valDigits, charToDigit]
  · rw [valDigits_ofDigits _ (fun d hd => Nat.digits_lt_base (by norm_num) hd),
      Nat.ofDigits_digits]

theorem natChars_ne_nil (n : Nat) : natChars n ≠ [] := by
  rw [natChars_eq]
  split
  · simp
  · simp_all [Nat.digits_ne_nil_iff_ne_zero]

theorem parseUnsigned_eq (l : List Char) (hne : l ≠ [])
    (hdig : allDigits l = true) : parseUnsigned l = some (valDigits l) := by
  unfold parseUnsigned
  rw [if_neg (by simpa using hne), if_pos hdig]

theorem digit_not_special (c : Char) (h : (charToDigit c).isSome = true) :
    c ≠ '.' ∧ c ≠ 'e' ∧ c ≠ 'E' ∧ c ≠ '+' ∧ c ≠ '-' := by
  refine ⟨?_, ?_, ?_, ?_, ?_⟩ <;>
    · intro hc
      rw [hc] at h
      exact absurd h (by decide)

theorem allDigits_mem (l : List Char) (hdig : allDigits l = true) (c : Char)
    (hc : c ∈ l) : (charToDigit c).isSome = true := by
  rw [allDigits, List.all_eq_true] at hdig
  exact hdig c hc

theorem takeWhile_all (p : Char → Bool) (l : List Char)
    (h : ∀ c ∈ l, p c = true) : l.takeWhile p = l := by
  induction l with
  | nil => rfl
  | cons c l ih =>
    rw [List.takeWhile_cons, h c (by simp)]
    simp [ih (fun c hc => h c (by simp [hc]))]

theorem takeWhile_append_stop (p : Char → Bool) (A B : List Char) (c : Char)
    (hA : ∀ a ∈ A, p a = true) (hc : p c = false) :
    (A ++ c :: B).takeWhile p = A := by
  induction A with
  | nil => simp [List.takeWhile_cons, hc]
  | cons a A ih =>
    rw [List.cons_append, List.takeWhile_cons, hA a (by simp)]
    simp only [ite_true]
    rw [ih (fun a ha => hA a (by simp [ha]))]

theorem trim_decomp (l : List Char) :
    l = trimTrailingZeros l ++
      List.replicate (l.length - (trimTrailingZeros l).length) '0' ∧
    (trimTrailingZeros l).length ≤ l.length := by
  unfold trimTrailingZeros
  set p : Char → Bool := fun c => c = '0' with hp
  have hsplit : l.reverse.takeWhile p ++ l.reverse.dropWhile p = l.reverse :=
    List.takeWhile_append_dropWhile p l.reverse
  have htake : l.reverse.takeWhile p =
      List.replicate (l.reverse.takeWhile p).length '0' := by
    apply List.eq_replicate_of_mem
    intro b hb
    have := List.mem_takeWhile_imp hb
    rw [hp] at this
    exact of_decide_eq_true this
  have hl : l = (l.reverse.dropWhile p).reverse ++
      List.replicate (l.reverse.takeWhile p).length '0' := by
    conv_lhs => rw [← List.reverse_reverse l, ← hsplit]
    rw [List.reverse_append]
    congr 1
    rw [htake, List.reverse_replicate, List.length_replicate]
  constructor
  · conv_lhs => rw [hl]
    congr 2
    have hlen : l.length = (l.reverse.dropWhile p).reverse.length +
        (l.reverse.takeWhile p).length := by
      conv_lhs => rw [hl]
      simp
    omega
  · have hsub : ((l.reverse.dropWhile p).reverse).length ≤ l.length := by
      rw [List.length_reverse, ← List.length_reverse l]
      exact (List.dropWhile_sublist p).length_le
    exact hsub

theorem valDigits_replicate_zero (t : Nat) :
    valDigits (List.replicate t '0') = 0 := by
  induction t with
  | zero => rfl
  | succ t ih =>
    rw [List.replicate_succ]
    unfold valDigits at ih ⊢
    rw [List.foldl_cons]
    simpa [charToDigit] using ih

theorem noSpecial_of_digits (l : List Char) (hdig : allDigits l = true) :
    ∀ c ∈ l, c ≠ '.' ∧ c ≠ 'e' ∧ c ≠ 'E' ∧ c ≠ '+' ∧ c ≠ '-' := fun c hc =>
  digit_not_special c (allDigits_mem l hdig c hc)

theorem splitOnE_of_noE (s : List Char)
    (h : ∀ c ∈ s, (!(c = 'e' || c = 'E') : Bool) = true) :
    splitOnE s = (s, []) := by
  unfold splitOnE
  rw [takeWhile_all _ _ h, List.drop_length]

theorem splitDot_of_nodot (m : List Char)
    (h : ∀ c ∈ m, (!(c = '.') : Bool) = true) :
    splitDot m = .ok (m, 0) := by
  unfold splitDot
  simp only [takeWhile_all _ _ h, List.drop_length]

theorem splitDot_single_dot (A B : List Char)
    (hA : ∀ a ∈ A, (!(a = '.') : Bool) = true)
    (hB : B.any (fun c => c = '.') = false) :
    splitDot (A ++ '.' :: B) = .ok (A ++ B, (B.length : Int)) := by
  unfold splitDot
  simp only [takeWhile_append_stop _ _ _ '.' hA (by decide), List.drop_left, hB]
  rfl

theorem parseIntChars_signed (sgn digits : List Char)
    (hsgn : sgn = [] ∨ sgn = ['-'])
    (hne : digits ≠ []) (hdig : allDigits digits = true) :
    parseIntChars (sgn ++ digits) =
      some (if sgn.isEmpty then (valDigits digits : Int)
        else -(valDigits digits : Int)) := by
  have hpu : parseUnsigned digits = some (valDigits digits) :=
    parseUnsigned_eq _ hne hdig
  rcases hsgn with rfl | rfl
  · simp only [List.nil_append]
    rcases hds : digits with _ | ⟨c, d'⟩
    · exact absurd hds hne
    · have hcdig : (charToDigit c).isSome = true := by
        apply allDigits_mem digits hdig
        rw [hds]
        simp
      have hcsp := digit_not_special c hcdig
      rw [parseIntChars]
      rw [if_neg hcsp.2.2.2.1, if_neg hcsp.2.2.2.2]
      rw [← hds, hpu]
      simp
  · rw [List.cons_append, List.nil_append, parseIntChars]
    rw [if_neg (by decide), if_pos rfl, hpu]
    simp

theorem NewFromString_shape (sgn ip fp : List Char)
    (hsgn : sgn = [] ∨ sgn = ['-'])
    (hip : ip ≠ []) (hipd : allDigits ip = true) (hfpd : allDigits fp = true)
    (hlen : (fp.length : Int) ≤ 2147483648) :
    decimal.NewFromString (sgn ++ ip ++ (if fp.isEmpty then [] else '.' :: fp)) =
      Except.ok ⟨if sgn.isEmpty then (valDigits (ip ++ fp) : Int)
        else -(valDigits (ip ++ fp) : Int), -(fp.length : Int)⟩ := by
  have hipd' := noSpecial_of_digits ip hipd
  have hfpd' := noSpecial_of_digits fp hfpd
  have hnoE : ∀ c ∈ sgn ++ ip ++ (if fp.isEmpty then [] else '.' :: fp),
      (!(c = 'e' || c = 'E') : Bool) = true := by
    intro c hc
    rcases List.mem_append.mp hc with hc1 | hc2
    · rcases List.mem_append.mp hc1 with hs | hi
      · rcases hsgn with rfl | rfl
        · simp at hs
        · simp at hs
          subst hs
          decide
      · simp [(hipd' c hi).2.1, (hipd' c hi).2.2.1]
    · by_cases hfp : fp = []
      · rw [hfp] at hc2
        simp at hc2
      · rw [if_neg (by simpa using hfp)] at hc2
        rcases List.mem_cons.mp hc2 with rfl | hf
        · decide
        · simp [(hfpd' c hf).2.1, (hfpd' c hf).2.2.1]
  have hnodotA : ∀ a ∈ sgn ++ ip, (!(a = '.') : Bool) = true := by
    intro a ha
    rcases List.mem_append.mp ha with hs | hi
    · rcases hsgn with rfl | rfl
      · simp at hs
      · simp at hs
        subst hs
        decide
    · simp [(hipd' a hi).1]
  have hne2 : ip ++ fp ≠ [] := by
    cases ip
    · exact absurd rfl hip
    · simp
  have hdig2 : allDigits (ip ++ fp) = true := by
    rw [allDigits, List.all_append]
    rw [allDigits] at hipd hfpd
    rw [hipd, hfpd]
    rfl
  have hparse := parseIntChars_signed sgn (ip ++ fp) hsgn hne2 hdig2
  by_cases hfp : fp = []
  · subst hfp
    simp only [List.isEmpty_nil, if_true, List.append_nil] at hnoE ⊢
    have h1 := splitOnE_of_noE (sgn ++ ip) hnoE
    have h2 := splitDot_of_nodot (sgn ++ ip) hnodotA
    rw [List.append_nil] at hparse
    unfold decimal.NewFromString
    rw [h1]
    simp only [parseExpPart]
    rw [h2]
    simp only []
    rw [hparse]
    have hrange : ¬((0 - (0 : Int)) < minInt32 ∨ maxInt32 < (0 - (0 : Int))) := by
      unfold minInt32 maxInt32
      omega
    simp only [if_neg hrange]
    simp
  · have hfpe : fp.isEmpty = false := by simpa using hfp
    have hassoc : sgn ++ ip ++ (if fp.isEmpty then [] else '.' :: fp) =
        (sgn ++ ip) ++ '.' :: fp := by
      rw [hfpe]
      simp
    rw [hassoc] at hnoE ⊢
    have h1 := splitOnE_of_noE ((sgn ++ ip) ++ '.' :: fp) hnoE
    have hnodotF : fp.any (fun c => c = '.') = false := by
      rw [List.any_eq_false]
      intro c hc
      simp [(hfpd' c hc).1]
    have h2 := splitDot_single_dot (sgn ++ ip) fp hnodotA hnodotF
    unfold decimal.NewFromString
    rw [h1]
    simp only [parseExpPart]
    rw [h2]
    simp only []
    rw [List.append_assoc, hparse]
    have hrange : ¬((0 - (fp.length : Int)) < minInt32 ∨
        maxInt32 < (0 - (fp.length : Int))) := by
      unfold minInt32 maxInt32
      omega
    simp only [if_neg hrange]
    congr 2
    omega

theorem roundtrip_core (d : Decimal) (hneg : d.exp < 0) (h1 : minInt32 ≤ d.exp)
    (ip frRaw : List Char)
    (htc : d.toChars = (if d.value < 0 then ['-'] else []) ++ ip ++
      (if (trimTrailingZeros frRaw).isEmpty then []
       else '.' :: trimTrailingZeros frRaw))
    (hipne : ip ≠ []) (hipd : allDigits ip = true)
    (hfrd : allDigits frRaw = true)
    (hfrlen : frRaw.length = (-d.exp).toNat)
    (hval : valDigits ip * 10 ^ (-d.exp).toNat + valDigits frRaw =
      d.value.natAbs) :
    ∃ d2 : Decimal, decimal.NewFromString d.toChars = Except.ok d2 ∧
      d2.val = d.val := by
  obtain ⟨hdec, hle⟩ := trim_decomp frRaw
  set frac := trimTrailingZeros frRaw with hfrac
  set t := frRaw.length - frac.length with ht
  have hkz : (((-d.exp).toNat : ℕ) : Int) = -d.exp := Int.toNat_of_nonneg (by omega)
  have hfracd : allDigits frac = true := by
    rw [allDigits, List.all_eq_true]
    intro c hc
    apply allDigits_mem frRaw hfrd
    rw [hdec]
    exact List.mem_append_left _ hc
  have hlen2 : ((frac.length : ℕ) : Int) ≤ 2147483648 := by
    have : frac.length ≤ frRaw.length := hle
    unfold minInt32 at h1
    omega
  have hsgn : (if d.value < 0 then ['-'] else []) = [] ∨
      (if d.value < 0 then ['-'] else []) = ['-'] := by
    by_cases hz : d.value < 0 <;> simp [hz]
  have hshape := NewFromString_shape _ ip frac hsgn hipne hipd hfracd hlen2
  rw [htc, hshape]
  refine ⟨_, rfl, ?_⟩
  -- arithmetic: the parsed value denotes the original value
  have hlensum : frac.length + t = frRaw.length := by
    omega
  have hfrval : valDigits frRaw = valDigits frac * 10 ^ t := by
    conv_lhs => rw [hdec]
    rw [valDigits_append, valDigits_replicate_zero, List.length_replicate]
    omega
  have key : valDigits (ip ++ frac) * 10 ^ t = d.value.natAbs := by
    rw [valDigits_append, ← hval, hfrval, ← hfrlen, ← hlensum]
    ring
  have keyq : ((valDigits (ip ++ frac) : ℚ)) * (10 : ℚ) ^ (t : ℕ) =
      ((d.value.natAbs : ℕ) : ℚ) := by
    exact_mod_cast congrArg (fun n : ℕ => (n : ℚ)) key
  have hexp : ((t : ℕ) : Int) + d.exp = -((frac.length : ℕ) : Int) := by
    omega
  have habs : ((d.value.natAbs : ℕ) : ℚ) * (10 : ℚ) ^ d.exp =
      ((valDigits (ip ++ frac) : ℚ)) * (10 : ℚ) ^ (-((frac.length : ℕ) : Int)) := by
    rw [← keyq, mul_assoc]
    congr 1
    rw [← zpow_natCast (10 : ℚ) t, ← zpow_add₀ (by norm_num : (10 : ℚ) ≠ 0), hexp]
  unfold Decimal.val
  by_cases hz : d.value < 0
  · rw [if_neg (by simp [hz] : ¬(if d.value < 0 then ['-'] else []).isEmpty = true)]
    have hneg2 : ((d.value : ℚ)) = -((d.value.natAbs : ℕ) : ℚ) := by
      have : d.value = -((d.value.natAbs : ℕ) : Int) := by omega
      exact_mod_cast congrArg (fun z : Int => (z : ℚ)) this
    push_cast
    rw [hneg2]
    rw [neg_mul, neg_mul, neg_inj]
    exact_mod_cast habs.symm
  · rw [if_pos (by simp [hz] : (if d.value < 0 then ['-'] else []).isEmpty = true)]
    have hpos2 : ((d.value : ℚ)) = ((d.value.natAbs : ℕ) : ℚ) := by
      rw [Int.cast_natAbs,
        abs_of_nonneg (show (0 : Int) ≤ d.value by omega)]
    push_cast
    rw [hpos2]
    exact_mod_cast habs.symm

theorem NewFromString_toChars (d : Decimal) (h1 : minInt32 ≤ d.exp) :
    ∃ d2 : Decimal, decimal.NewFromString d.toChars = Except.ok d2 ∧
      d2.val = d.val := by
  by_cases hpos : 0 ≤ d.exp
  · -- non-negative exponent: the rescaled integer is printed
    have htc : d.toChars =
        (if d.value * 10 ^ d.exp.toNat < 0 then ['-'] else []) ++
          natChars (d.value * 10 ^ d.exp.toNat).natAbs ++
          (if ([] : List Char).isEmpty then [] else '.' :: ([] : List Char)) := by
      unfold Decimal.toChars intChars
      rw [if_pos hpos]
      simp
    have hsgn : (if d.value * 10 ^ d.exp.toNat < 0 then ['-'] else []) = [] ∨
        (if d.value * 10 ^ d.exp.toNat < 0 then ['-'] else []) = ['-'] := by
      by_cases hz : d.value * 10 ^ d.exp.toNat < 0 <;> simp [hz]
    have hshape := NewFromString_shape _
      (natChars (d.value * 10 ^ d.exp.toNat).natAbs) [] hsgn
      (natChars_ne_nil _) (allDigits_natChars _) (by decide) (by norm_num)
    rw [htc, hshape]
    refine ⟨_, rfl, ?_⟩
    have hzq : ((d.value * 10 ^ d.exp.toNat : Int) : ℚ) =
        (d.value : ℚ) * (10 : ℚ) ^ d.exp := by
      push_cast
      rw [← zpow_natCast (10 : ℚ) d.exp.toNat, Int.toNat_of_nonneg hpos]
    unfold Decimal.val
    simp only [List.append_nil, valDigits_natChars, List.length_nil,
      Nat.cast_zero, neg_zero, zpow_zero, mul_one]
    by_cases hz : d.value * 10 ^ d.exp.toNat < 0
    · rw [if_neg (by simp [hz] :
        ¬(if d.value * 10 ^ d.exp.toNat < 0 then ['-'] else []).isEmpty = true)]
      rw [← hzq]
      have : -(((d.value * 10 ^ d.exp.toNat).natAbs : ℕ) : Int) =
          d.value * 10 ^ d.exp.toNat := by omega
      exact_mod_cast congrArg (fun z : Int => (z : ℚ)) this
    · rw [if_pos (by simp [hz] :
        (if d.value * 10 ^ d.exp.toNat < 0 then ['-'] else []).isEmpty = true)]
      rw [← hzq]
      have : (((d.value * 10 ^ d.exp.toNat).natAbs : ℕ) : Int) =
          d.value * 10 ^ d.exp.toNat := by omega
      exact_mod_cast congrArg (fun z : Int => (z : ℚ)) this
  · -- negative exponent: digits split around the decimal point
    push_neg at hpos
    by_cases hk : (-d.exp).toNat < (natChars d.value.natAbs).length
    · apply roundtrip_core d hpos h1
        ((natChars d.value.natAbs).take
          ((natChars d.value.natAbs).length - (-d.exp).toNat))
        ((natChars d.value.natAbs).drop
          ((natChars d.value.natAbs).length - (-d.exp).toNat))
      · unfold Decimal.toChars
        rw [if_neg (by omega)]
        simp only [if_pos hk]
      · apply List.ne_nil_of_length_pos
        rw [List.length_take]
        omega
      · rw [allDigits, List.all_eq_true]
        intro c hc
        exact allDigits_mem _ (allDigits_natChars _) c (List.mem_of_mem_take hc)
      · rw [allDigits, List.all_eq_true]
        intro c hc
        exact allDigits_mem _ (allDigits_natChars _) c (List.mem_of_mem_drop hc)
      · rw [List.length_drop]
        omega
      · have hfull : valDigits
            ((natChars d.value.natAbs).take
              ((natChars d.value.natAbs).length - (-d.exp).toNat) ++
             (natChars d.value.natAbs).drop
              ((natChars d.value.natAbs).length - (-d.exp).toNat)) =
            d.value.natAbs := by
          rw [List.take_append_drop]
          exact valDigits_natChars _
        rw [valDigits_append, List.length_drop] at hfull
        have hlen : (natChars d.value.natAbs).length -
            ((natChars d.value.natAbs).length - (-d.exp).toNat) =
            (-d.exp).toNat := by omega
        rw [hlen] at hfull
        exact hfull
    · apply roundtrip_core d hpos h1 ['0']
        (List.replicate ((-d.exp).toNat - (natChars d.value.natAbs).length) '0' ++
          natChars d.value.natAbs)
      · unfold Decimal.toChars
        rw [if_neg (by omega)]
        simp only [if_neg hk]
      · simp
      · decide
      · rw [allDigits, List.all_eq_true]
        intro c hc
        rcases List.mem_append.mp hc with hc1 | hc2
        · rw [List.eq_of_mem_replicate hc1]
          decide
        · exact allDigits_mem _ (allDigits_natChars _) c hc2
      · rw [List.length_append, List.length_replicate]
        omega
      · rw [valDigits_append, valDigits_replicate_zero, valDigits_natChars]
        have h0 : valDigits ['0'] = 0 := by decide
        rw [h0]
        omega

/-- Claim C8 counterexample: the Money with magnitude 10.50 (1050 minor
units) marshals its magnitude to the string "10.5" — `Decimal.String()`
trims trailing zeros — and not to "10.50" as the claim asserts. -/
theorem moneyJSON_1050_counterexample :
    (Money.MarshalJSON { value := ⟨1050, -2⟩, currency := CurrencyUSD }).Value =
      some "10.5" ∧ ("10.5" : String) ≠ "10.50" := by
  constructor
  · decide
  · decide

/-- Claim C8 (amended): for every Money (with the `int32` exponent bound
of the Go decimal type), `MarshalJSON` emits the magnitude as a string —
with trailing zeros trimmed — and `UnmarshalJSON` applied to that output
succeeds and yields a Money whose magnitude compares equal (`Cmp = 0`)
and whose currency is unchanged; in particular 1050 minor units
serializes to "10.5" (not "10.50") and round-trips to an equal
magnitude. -/
theorem marshal_unmarshal_roundtrip (m : Money)
    (h : decimal.minInt32 ≤ m.value.exp) :
    (Money.UnmarshalJSON (Money.MarshalJSON m)).map
      (fun m2 => (m2.Cmp m, m2.currency)) = .ok (0, m.currency) := by
  obtain ⟨d2, hd2, hval⟩ := NewFromString_toChars m.value h
  simp only [Money.MarshalJSON, Money.UnmarshalJSON, Decimal.toGoString]
  rw [hd2]
  simp only [Except.map]
  unfold NewFomDecimal Money.Cmp Decimal.Cmp
  rw [hval]
  simp

/-- Claim C8 witness: the amended round trip evaluated at the 1050
minor-unit Money. -/
theorem marshal_unmarshal_roundtrip_witness :
    (Money.UnmarshalJSON
        (Money.MarshalJSON { value := ⟨1050, -2⟩, currency := CurrencyUSD })).map
      (fun m2 => (m2.Cmp { value := ⟨1050, -2⟩, currency := CurrencyUSD },
        m2.currency)) = .ok (0, CurrencyUSD) :=
  marshal_unmarshal_roundtrip { value := ⟨1050, -2⟩, currency := CurrencyUSD }
    (by decide)

end StringRoundTripTheorems
